import Mathlib

/-!
Verification of the EBOdds extraction engine (`plugin.py`).

The development shallowly embeds the HTML-extraction logic of the plugin:
an HTML document is a tree of `Node`s, BeautifulSoup-style queries
(`find_all`, `find` with attribute predicates, `.text`) are recursive
functions over that tree, and the three extractor methods
(`_extract_party_odds`, `_extract_candidate_odds`, `_extract_house_odds`)
are translated match-for-match, including the per-row `try/except
ValueError` (modelled by `Option`-valued parses) and the uncaught
`KeyError`s from `tag['src']` subscripts and from the
`change_directions[party]` access inside a debug f-string (modelled by
`Except Unit`).  Python's `float` is modelled on its decimal fragment
(optional sign, digits, optional fraction), which covers every string the
page format and the regular expression `([+-]?\d+\.?\d*)%` can produce.
-/

/-! ### Python string primitives -/

/-- The characters `str.strip()` (no argument) removes, ASCII fragment. -/
def isPySpace (c : Char) : Bool :=
  c == ' ' || c == '\t' || c == '\n' || c == '\r' || c == '\x0b' || c == '\x0c'

/-- Drop matching characters from the end of a list. -/
def dropEndWhile (p : Char → Bool) (l : List Char) : List Char :=
  (l.reverse.dropWhile p).reverse

/-- `str.strip()` on the character list: whitespace removed from both ends. -/
def stripSpaceL (l : List Char) : List Char :=
  dropEndWhile isPySpace (l.dropWhile isPySpace)

/-- Python `s.strip()`. -/
def pyStrip (s : String) : String := String.mk (stripSpaceL s.data)

/-- `str.strip(c)` on the character list: copies of `c` removed from both ends. -/
def stripCharEq (c : Char) (l : List Char) : List Char :=
  dropEndWhile (· == c) (l.dropWhile (· == c))

/-- Python `s.strip(c)` for a one-character argument (used as `strip('%')`
and `strip('/')` in the source). -/
def pyStripChar (c : Char) (s : String) : String := String.mk (stripCharEq c s.data)

/-- Does `hay` start with `needle` (both as character lists)? -/
def startsWithL : List Char → List Char → Bool
  | [], _ => true
  | _ :: _, [] => false
  | a :: as, b :: bs => (a == b) && startsWithL as bs

/-- Does the character list contain `needle` as a contiguous subsequence? -/
def containsSeqL (needle : List Char) : List Char → Bool
  | [] => needle.isEmpty
  | c :: cs => startsWithL needle (c :: cs) || containsSeqL needle cs

/-- Python `needle in hay` for strings (substring containment). -/
def strContains (hay needle : String) : Bool := containsSeqL needle.data hay.data

/-- Python `s.endswith(suffix)`. -/
def strEndsWith (s suffix : String) : Bool :=
  startsWithL suffix.data.reverse s.data.reverse

/-- Python `s.split(sep)` for a one-character separator, on character lists.
Always returns a non-empty list of groups. -/
def pySplitC (sep : Char) : List Char → List (List Char)
  | [] => [[]]
  | c :: cs =>
    match pySplitC sep cs with
    | [] => [[]]
    | g :: gs => if c == sep then [] :: g :: gs else (c :: g) :: gs

/-- Python `s.split('.')[0]`. -/
def pySplitHeadDot (s : String) : String := String.mk ((pySplitC '.' s.data).headD [])

/-- Python `s.split('/')[-1]`. -/
def pySplitLastSlash (s : String) : String := String.mk ((pySplitC '/' s.data).getLastD [])

/-! ### Python `float` (decimal fragment) and the change regular expression -/

/-- Value of a digit string, most significant first. -/
def digitsVal (l : List Char) : Nat :=
  l.foldl (fun a c => 10 * a + (c.toNat - 48)) 0

/-- Value of a decimal literal `[-]ip.fp` as a rational. -/
def decVal (neg : Bool) (ip fp : List Char) : Rat :=
  let v : Rat := (digitsVal ip : Rat) + (digitsVal fp : Rat) / (10 : Rat) ^ fp.length
  if neg then -v else v

/-- Python `float(s)` restricted to its decimal fragment: optional sign,
then digits with at most one decimal point and at least one digit
(`"12"`, `"12."`, `".5"`, `"+3.25"` parse; `""`, `"."`, `"N/A"` do not).
`none` models the `ValueError` that the source catches per row. -/
def pyFloatCore (l : List Char) : Option Rat :=
  let sr : Bool × List Char :=
    match l with
    | '+' :: r => (false, r)
    | '-' :: r => (true, r)
    | r => (false, r)
  match pySplitC '.' sr.2 with
  | [ip] =>
    if !ip.isEmpty && ip.all Char.isDigit then some (decVal sr.1 ip []) else none
  | [ip, fp] =>
    if (!ip.isEmpty || !fp.isEmpty) && ip.all Char.isDigit && fp.all Char.isDigit then
      some (decVal sr.1 ip fp)
    else none
  | _ => none

/-- Python `float(s)` (decimal fragment); `float` itself strips surrounding
whitespace before parsing. -/
def pyFloat (s : String) : Option Rat := pyFloatCore (stripSpaceL s.data)

/-- Match of `([+-]?\d+\.?\d*)%` anchored at the head of the list, returning
`float` of capture group 1.  The greedy quantifiers never need to backtrack:
after the maximal digit runs the next character must be `%` (taking the
optional dot first when present, exactly as the backtracking engine does). -/
def matchChangeAt (l : List Char) : Option Rat :=
  let sr : Bool × List Char :=
    match l with
    | '+' :: r => (false, r)
    | '-' :: r => (true, r)
    | r => (false, r)
  let d1 := sr.2.takeWhile Char.isDigit
  let r2 := sr.2.dropWhile Char.isDigit
  if d1.isEmpty then none
  else
    match r2 with
    | '%' :: _ => some (decVal sr.1 d1 [])
    | '.' :: r3 =>
      match r3.dropWhile Char.isDigit with
      | '%' :: _ => some (decVal sr.1 d1 (r3.takeWhile Char.isDigit))
      | _ => none
    | _ => none

/-- `re.search(r'([+-]?\d+\.?\d*)%', text)` followed by `float(group(1))`:
try each start position left to right. -/
def reSearchChange : List Char → Option Rat
  | [] => none
  | c :: cs =>
    match matchChangeAt (c :: cs) with
    | some v => some v
    | none => reSearchChange cs

/-! ### The document tree (BeautifulSoup fragment) -/

/-- A parsed markup node: an element with a tag name, attributes and
children, or a text node. -/
inductive Node where
  | elem (tag : String) (attrs : List (String × String)) (children : List Node)
  | text (s : String)

/-- Attribute lookup, `tag.get(name)`: `none` when absent. -/
def Node.attr : Node → String → Option String
  | .elem _ attrs _, k => (attrs.find? (fun p => p.1 == k)).map Prod.snd
  | .text _, _ => none

/-- Python `tag[name]` subscript: raises `KeyError` (modelled as
`Except.error ()`) when the attribute is absent. -/
def nodeItem (n : Node) (k : String) : Except Unit String :=
  match n.attr k with
  | some v => .ok v
  | none => .error ()

mutual
/-- All descendant nodes of a node in document (pre-)order, the node itself
excluded — the traversal order of BeautifulSoup's `find`/`find_all`. -/
def descendants : Node → List Node
  | .text _ => []
  | .elem _ _ cs => descList cs

/-- Descendant closure of a list of sibling nodes, document order. -/
def descList : List Node → List Node
  | [] => []
  | c :: cs => c :: descendants c ++ descList cs
end

mutual
/-- BeautifulSoup's `.text`: concatenation of all descendant strings. -/
def nodeText : Node → String
  | .text s => s
  | .elem _ _ cs => textList cs

/-- `.text` of a list of sibling nodes. -/
def textList : List Node → String
  | [] => ""
  | c :: cs => nodeText c ++ textList cs
end

/-- Is the node an element with the given tag? -/
def isTag (t : String) (n : Node) : Bool :=
  match n with
  | .elem tg _ _ => tg == t
  | .text _ => false

/-- `tag.find(pred)`: first descendant satisfying the predicate. -/
def findFirst (p : Node → Bool) (n : Node) : Option Node := (descendants n).find? p

/-- `tag.find_all(name)`: all descendants with the given tag, document order. -/
def findAllTag (t : String) (n : Node) : List Node := (descendants n).filter (isTag t)

/-! ### Row-level queries of the extractors -/

/-- `row.find('img', src=lambda x: x and x.endswith(('.png')))`
(`_extract_party_odds`, line 65). -/
def partyImgPred (n : Node) : Bool :=
  isTag "img" n &&
    (match n.attr "src" with
     | some s => strEndsWith s ".png"
     | none => false)

/-- `row.find('img', src=lambda x: x and x.endswith('.png') and
not x.endswith(('red.png', 'green.png')))`
(`_extract_candidate_odds` line 118, `_extract_house_odds` line 170). -/
def candImgPred (n : Node) : Bool :=
  isTag "img" n &&
    (match n.attr "src" with
     | some s => strEndsWith s ".png" && !(strEndsWith s "red.png" || strEndsWith s "green.png")
     | none => false)

/-- `row.find('p', style=lambda v: v and 'font-size: 55pt' in v)`. -/
def oddsPPred (n : Node) : Bool :=
  isTag "p" n &&
    (match n.attr "style" with
     | some v => strContains v "font-size: 55pt"
     | none => false)

/-- `row.find('span', style=lambda v: v and 'font-size: 20pt' in v)`. -/
def changeSpanPred (n : Node) : Bool :=
  isTag "span" n &&
    (match n.attr "style" with
     | some v => strContains v "font-size: 20pt"
     | none => false)

/-- First qualifying party image of a row. -/
def rowPartyImg : Node → Option Node := findFirst partyImgPred

/-- First qualifying candidate/house entity image of a row. -/
def rowCandImg : Node → Option Node := findFirst candImgPred

/-- First headline-odds paragraph of a row. -/
def rowOddsP : Node → Option Node := findFirst oddsPPred

/-- First change-annotation span of a row. -/
def rowChangeSpan : Node → Option Node := findFirst changeSpanPred

/-- `span.find('img')`: first nested image, no attribute filter. -/
def findAnyImg (n : Node) : Option Node := findFirst (isTag "img") n

/-- Party entity key: `img['src'].split('.')[0].strip('/')` (line 67). -/
def partyKey (src : String) : String := pyStripChar '/' (pySplitHeadDot src)

/-- Candidate/house entity key: `img['src'].split('/')[-1].split('.')[0]`
(lines 120 and 172). -/
def candKey (src : String) : String := pySplitHeadDot (pySplitLastSlash src)

/-- The headline odds number of a row: `float(odds_p.text.strip().strip('%'))`. -/
def rowOddsVal (p : Node) : Option Rat :=
  pyFloat (pyStripChar '%' (pyStrip (nodeText p)))

/-- The change value of a change span:
`re.search(r'([+-]?\d+\.?\d*)%', span.text.strip())` and `float` of group 1. -/
def spanChangeVal (span : Node) : Option Rat :=
  reSearchChange (pyStrip (nodeText span)).data

/-! ### Python dictionaries as insertion-ordered association lists -/

/-- `d[k] = v` on a Python (insertion-ordered) dict: overwrite in place if
the key exists, else append. -/
def dictInsert {α : Type} (k : String) (v : α) : List (String × α) → List (String × α)
  | [] => [(k, v)]
  | (k', v') :: rest => if k' == k then (k, v) :: rest else (k', v') :: dictInsert k v rest

/-- `d.get(k)` on a Python dict. -/
def dictGet {α : Type} (k : String) : List (String × α) → Option α
  | [] => none
  | (k', v) :: rest => if k' == k then some v else dictGet k rest

/-! ### `_extract_party_odds` -/

/-- The three accumulator dicts of `_extract_party_odds`:
`odds`, `changes`, `change_directions`. -/
structure PState where
  odds : List (String × Rat)
  changes : List (String × Rat)
  dirs : List (String × String)
deriving Repr, DecidableEq

/-- Result type of `_extract_party_odds`: the 6-tuple
`(odds.get('REP'), odds.get('DEM'), changes.get('REP'), changes.get('DEM'),
change_directions.get('REP'), change_directions.get('DEM'))`. -/
abbrev PartyRes :=
  Option Rat × Option Rat × Option Rat × Option Rat × Option String × Option String

/-- One row-body iteration of `_extract_party_odds` (lines 65–96).  Skips
(state unchanged) when the row has no qualifying image, no headline
paragraph, or the headline text fails `float` (the caught `ValueError`).
Mirrors the source's update order: `odds[party]` is set before the change
span is examined; a parsed change with an icon sets `change_directions`
then `changes`; with no icon only `changes` is set — after which the debug
f-string on line 90 evaluates `change_directions[party]`, a `KeyError`
(`Except.error`) when that key was never set. -/
def partyStep (st : PState) (row : Node) : Except Unit PState :=
  match rowPartyImg row with
  | none => .ok st
  | some img =>
    match nodeItem img "src" with
    | .error e => .error e
    | .ok src =>
      let party := partyKey src
      match rowOddsP row with
      | none => .ok st
      | some p =>
        match rowOddsVal p with
        | none => .ok st
        | some q =>
          let odds' := dictInsert party q st.odds
          match rowChangeSpan row with
          | none => .ok ⟨odds', st.changes, st.dirs⟩
          | some span =>
            match spanChangeVal span with
            | none => .ok ⟨odds', st.changes, st.dirs⟩
            | some cv =>
              match findAnyImg span with
              | none =>
                match dictGet party st.dirs with
                | none => .error ()
                | some _ => .ok ⟨odds', dictInsert party cv st.changes, st.dirs⟩
              | some cimg =>
                match nodeItem cimg "src" with
                | .error e => .error e
                | .ok csrc =>
                  .ok ⟨odds', dictInsert party cv st.changes,
                       dictInsert party (if strContains csrc "red.png" then "down" else "up")
                         st.dirs⟩

/-- The inner `for row in table.find_all('tr')` loop of
`_extract_party_odds`. -/
def partyFold (st : PState) : List Node → Except Unit PState
  | [] => .ok st
  | row :: rest =>
    match partyStep st row with
    | .ok st' => partyFold st' rest
    | .error e => .error e

/-- Heading substring of the party table (line 62). -/
def partyHeading : String := "Presidency 2024 (by party)"

/-- Heading substring of the candidate table (line 113). -/
def candHeading : String := "US Presidency 2024"

/-- Heading substring of the house table (line 166). -/
def houseHeading : String := "House Control 2024"

/-- `th = table.find('th'); th and heading in th.text`. -/
def tableMatches (h : String) (t : Node) : Bool :=
  match findFirst (isTag "th") t with
  | some th => strContains (nodeText th) h
  | none => false

/-- The outer `for table in tables` loop of `_extract_party_odds` (lines
60–64).  There is no `break`: every matching table's rows are processed. -/
def partyTables (st : PState) : List Node → Except Unit PState
  | [] => .ok st
  | t :: ts =>
    if tableMatches partyHeading t then
      match partyFold st (findAllTag "tr" t) with
      | .ok st' => partyTables st' ts
      | .error e => .error e
    else partyTables st ts

/-- `_extract_party_odds(soup)` (lines 52–103). -/
def extractPartyOdds (soup : Node) : Except Unit PartyRes :=
  match partyTables ⟨[], [], []⟩ (findAllTag "table" soup) with
  | .error e => .error e
  | .ok st =>
    .ok (dictGet "REP" st.odds, dictGet "DEM" st.odds,
         dictGet "REP" st.changes, dictGet "DEM" st.changes,
         dictGet "REP" st.dirs, dictGet "DEM" st.dirs)

/-! ### `_extract_candidate_odds` and `_extract_house_odds` -/

/-- One parsed candidate row, the tuple
`(name, odds, change_value, change_direction)` appended on line 138. -/
structure CRow where
  name : String
  odds : Rat
  change : Rat
  dir : String
deriving Repr, DecidableEq

/-- The change part of a candidate/house row (lines 129–138 / 180–188):
`none` when the span is missing or its text has no `([+-]?\d+\.?\d*)%`
match; otherwise the signed change value and the direction
`'down' if change_img and 'red' in change_img['src'] else 'up'`.
`change_img['src']` raises `KeyError` when the nested image has no
`src` attribute. -/
def candChangePart (row : Node) : Except Unit (Option (Rat × String)) :=
  match rowChangeSpan row with
  | none => .ok none
  | some span =>
    match spanChangeVal span with
    | none => .ok none
    | some cv =>
      match findAnyImg span with
      | none => .ok (some (cv, "up"))
      | some cimg =>
        match nodeItem cimg "src" with
        | .error e => .error e
        | .ok csrc => .ok (some (cv, if strContains csrc "red" then "down" else "up"))

/-- One row-body iteration of `_extract_candidate_odds` (lines 117–147):
`ok none` when the row is skipped, `ok (some r)` when a tuple is appended.
The 1% cutoff (line 128) gates the change extraction. -/
def candidateProcessRow (row : Node) : Except Unit (Option CRow) :=
  match rowCandImg row with
  | none => .ok none
  | some img =>
    match nodeItem img "src" with
    | .error e => .error e
    | .ok src =>
      match rowOddsP row with
      | none => .ok none
      | some p =>
        match rowOddsVal p with
        | none => .ok none
        | some odds =>
          if 1 ≤ odds then
            match candChangePart row with
            | .error e => .error e
            | .ok none => .ok none
            | .ok (some (cv, dir)) => .ok (some ⟨candKey src, odds, cv, dir⟩)
          else .ok none

/-- The candidate row body without the `odds >= 1.0` gate — the
specification's notion of "a parsed row" before the cutoff filter, used to
compare the filter/sort/cap pipeline against the code.  It is also exactly
the house row body (lines 169–196), which repeats the candidate logic with
no cutoff. -/
def candidateProcessRowNC (row : Node) : Except Unit (Option CRow) :=
  match rowCandImg row with
  | none => .ok none
  | some img =>
    match nodeItem img "src" with
    | .error e => .error e
    | .ok src =>
      match rowOddsP row with
      | none => .ok none
      | some p =>
        match rowOddsVal p with
        | none => .ok none
        | some odds =>
          match candChangePart row with
          | .error e => .error e
          | .ok none => .ok none
          | .ok (some (cv, dir)) => .ok (some ⟨candKey src, odds, cv, dir⟩)

/-- The `for row in rows` loop of `_extract_candidate_odds`, producing the
`candidates` list in document order. -/
def candFold : List Node → Except Unit (List CRow)
  | [] => .ok []
  | row :: rest =>
    match candidateProcessRow row with
    | .error e => .error e
    | .ok r? =>
      match candFold rest with
      | .error e => .error e
      | .ok l =>
        .ok (match r? with
             | some r => r :: l
             | none => l)

/-- The candidate row loop without the 1% cutoff. -/
def candFoldNC : List Node → Except Unit (List CRow)
  | [] => .ok []
  | row :: rest =>
    match candidateProcessRowNC row with
    | .error e => .error e
    | .ok r? =>
      match candFoldNC rest with
      | .error e => .error e
      | .ok l =>
        .ok (match r? with
             | some r => r :: l
             | none => l)

/-- The outer table loop of `_extract_candidate_odds` (lines 111–116); no
`break`, so every matching table's rows extend the one `candidates` list. -/
def candTables : List Node → Except Unit (List CRow)
  | [] => .ok []
  | t :: ts =>
    if tableMatches candHeading t then
      match candFold (findAllTag "tr" t) with
      | .error e => .error e
      | .ok a =>
        match candTables ts with
        | .error e => .error e
        | .ok b => .ok (a ++ b)
    else candTables ts

/-- The `candidates` list just before sorting (line 151). -/
def candidateCollect (soup : Node) : Except Unit (List CRow) :=
  candTables (findAllTag "table" soup)

/-- `candidates.sort(key=lambda x: x[1], reverse=True)`: Python's stable
sort, descending on the odds component. -/
def pySortDesc (l : List CRow) : List CRow :=
  l.insertionSort (fun a b => b.odds ≤ a.odds)

/-- `_extract_candidate_odds(soup)` (lines 105–156): collect, stable-sort
descending by odds, truncate to the top 4. -/
def extractCandidateOdds (soup : Node) : Except Unit (List CRow) :=
  match candidateCollect soup with
  | .error e => .error e
  | .ok c => .ok ((pySortDesc c).take 4)

/-- The value triple stored per party in `house_odds`:
`(odds, change_value, change_direction)` (line 189). -/
abbrev HVal := Rat × Rat × String

/-- One row-body iteration of `_extract_house_odds` (lines 169–196): the
candidate row logic with no cutoff, keyed for the `house_odds` dict. -/
def houseProcessRow (row : Node) : Except Unit (Option (String × HVal)) :=
  match candidateProcessRowNC row with
  | .error e => .error e
  | .ok none => .ok none
  | .ok (some r) => .ok (some (r.name, (r.odds, r.change, r.dir)))

/-- The house row loop accumulating into the `house_odds` dict
(`house_odds[party] = ...`, line 189). -/
def houseDictFold (m : List (String × HVal)) : List Node → Except Unit (List (String × HVal))
  | [] => .ok m
  | row :: rest =>
    match houseProcessRow row with
    | .error e => .error e
    | .ok none => houseDictFold m rest
    | .ok (some kv) => houseDictFold (dictInsert kv.1 kv.2 m) rest

/-- The same house row loop recording the successfully parsed rows as a
sequence in document order (the spec's view, before dict keying). -/
def houseFoldSeq : List Node → Except Unit (List (String × HVal))
  | [] => .ok []
  | row :: rest =>
    match houseProcessRow row with
    | .error e => .error e
    | .ok r? =>
      match houseFoldSeq rest with
      | .error e => .error e
      | .ok l =>
        .ok (match r? with
             | some kv => kv :: l
             | none => l)

/-- The outer table loop of `_extract_house_odds` (lines 164–168). -/
def houseTables (m : List (String × HVal)) : List Node → Except Unit (List (String × HVal))
  | [] => .ok m
  | t :: ts =>
    if tableMatches houseHeading t then
      match houseDictFold m (findAllTag "tr" t) with
      | .ok m' => houseTables m' ts
      | .error e => .error e
    else houseTables m ts

/-- `_extract_house_odds(soup)` (lines 158–201). -/
def extractHouseOdds (soup : Node) : Except Unit (List (String × HVal)) :=
  houseTables [] (findAllTag "table" soup)

/-! ### The fetch wrapper and the `all` command's party branch -/

/-- `_fetch_and_parse` (lines 42–50): a failed fetch/parse is modelled by a
`none` input; the `except Exception` catches everything the extractor
raises and returns `None`. -/
def fetchAndParse {α : Type} (fetched : Option Node) (extract : Node → Except Unit α) :
    Option α :=
  match fetched with
  | none => none
  | some soup =>
    match extract soup with
    | .ok a => some a
    | .error _ => none

/-- Python truthiness of an optional float: `None` and `0.0` are falsy. -/
def ratTruthy (o : Option Rat) : Bool :=
  match o with
  | none => false
  | some q => q != 0

/-- Python truthiness of an optional string: `None` and `''` are falsy. -/
def strTruthy (o : Option String) : Bool :=
  match o with
  | none => false
  | some s => s != ""

/-- `all(party_odds)` for the 6-tuple of `_extract_party_odds`. -/
def partyTupleAll (t : PartyRes) : Bool :=
  ratTruthy t.1 && ratTruthy t.2.1 && ratTruthy t.2.2.1 && ratTruthy t.2.2.2.1 &&
    strTruthy t.2.2.2.2.1 && strTruthy t.2.2.2.2.2

/-- Simplified rendering of the available-party line of the `all` command
(lines 265–269); the IRC colour codes and `%.1f` formatting are presentation
detail — the verified part is which branch is taken. -/
def partyAvailText (t : PartyRes) : String :=
  "Republican " ++ toString ((t.1).getD 0) ++ "%, Democrat " ++ toString ((t.2.1).getD 0) ++ "%"

/-- The party segment of the `all` command (lines 264–271):
`if party_odds and all(party_odds): ... else: "Party odds unavailable"`.
A `None` result (failed fetch/parse) is falsy; a 6-tuple is always truthy
in Python, so the guard reduces to `all(party_odds)`. -/
def partySegment (po : Option PartyRes) : String :=
  match po with
  | none => "Party odds unavailable"
  | some t => if partyTupleAll t then partyAvailText t else "Party odds unavailable"

/-! ### Row selection across tables -/

/-- The concatenated row lists of all heading-matching tables in a list of
tables. -/
def rowsOf (h : String) (ts : List Node) : List Node :=
  (ts.map (fun t => if tableMatches h t then findAllTag "tr" t else [])).flatten

/-- All rows the extractor for heading `h` visits in `soup`, in document
order: the rows of every matching table (the loops have no `break`). -/
def selectRows (h : String) (soup : Node) : List Node :=
  rowsOf h (findAllTag "table" soup)

/-! ### Concrete document builders for the test documents -/

/-- An icon image element. -/
def mkImg (s : String) : Node := .elem "img" [("src", s)] []

/-- A headline-odds paragraph. -/
def mkP (t : String) : Node := .elem "p" [("style", "font-size: 55pt")] [.text t]

/-- A change-annotation span with given text and nested nodes. -/
def mkSpan (t : String) (kids : List Node) : Node :=
  .elem "span" [("style", "font-size: 20pt")] (.text t :: kids)

/-- A data row. -/
def mkRow (kids : List Node) : Node := .elem "tr" [] kids

/-- A heading row whose `th` carries the table caption text. -/
def hdr (h : String) : Node := .elem "tr" [] [.elem "th" [] [.text h]]

/-- A single-table document with the given heading text and data rows. -/
def mkDoc (h : String) (rows : List Node) : Node :=
  .elem "html" [] [.elem "table" [] (hdr h :: rows)]

/-- A data row that is structurally plain: a `tr` element none of whose
descendants is itself a `tr`, a `table` or a `th` (so it introduces no
extra tables, rows or headings into the document it is placed in). -/
def plainRow (n : Node) : Bool :=
  isTag "tr" n &&
    (descendants n).all (fun d => !(isTag "tr" d || isTag "table" d || isTag "th" d))

/-! ### Helper lemmas: loop flattening -/

theorem candFold_append (a b : List Node) :
    candFold (a ++ b) =
      match candFold a with
      | .error e => .error e
      | .ok x =>
        match candFold b with
        | .error e => .error e
        | .ok y => .ok (x ++ y) := by
  induction a with
  | nil =>
    simp only [List.nil_append, candFold]
    cases candFold b <;> rfl
  | cons r rest ih =>
    simp only [List.cons_append, candFold, List.append_eq]
    cases candidateProcessRow r with
    | error e => rfl
    | ok r? =>
      rw [ih]
      cases candFold rest with
      | error e => rfl
      | ok x =>
        cases candFold b with
        | error e => cases r? <;> rfl
        | ok y => cases r? <;> rfl

theorem candTables_flat (ts : List Node) :
    candTables ts = candFold (rowsOf candHeading ts) := by
  induction ts with
  | nil => rfl
  | cons t ts ih =>
    by_cases h : tableMatches candHeading t
    · simp only [candTables, rowsOf, List.map_cons, List.flatten_cons, if_pos h]
      rw [candFold_append, ih, rowsOf]
    · simp only [candTables, rowsOf, List.map_cons, List.flatten_cons, if_neg h,
        List.nil_append]
      rw [ih, rowsOf]

theorem partyFold_append (st : PState) (a b : List Node) :
    partyFold st (a ++ b) =
      match partyFold st a with
      | .error e => .error e
      | .ok st' => partyFold st' b := by
  induction a generalizing st with
  | nil => simp only [List.nil_append, partyFold]
  | cons r rest ih =>
    simp only [List.cons_append, partyFold, List.append_eq]
    cases partyStep st r with
    | error e => rfl
    | ok st' => exact ih st'

theorem partyTables_flat (st : PState) (ts : List Node) :
    partyTables st ts = partyFold st (rowsOf partyHeading ts) := by
  induction ts generalizing st with
  | nil => rfl
  | cons t ts ih =>
    by_cases h : tableMatches partyHeading t
    · simp only [partyTables, rowsOf, List.map_cons, List.flatten_cons, if_pos h]
      rw [partyFold_append]
      cases partyFold st (findAllTag "tr" t) with
      | error e => rfl
      | ok st' => simp only [ih]; rw [rowsOf]
    · simp only [partyTables, rowsOf, List.map_cons, List.flatten_cons, if_neg h,
        List.nil_append]
      rw [ih st, rowsOf]

theorem houseDictFold_append (m : List (String × HVal)) (a b : List Node) :
    houseDictFold m (a ++ b) =
      match houseDictFold m a with
      | .error e => .error e
      | .ok m' => houseDictFold m' b := by
  induction a generalizing m with
  | nil => simp only [List.nil_append, houseDictFold]
  | cons r rest ih =>
    simp only [List.cons_append, houseDictFold, List.append_eq]
    cases houseProcessRow r with
    | error e => rfl
    | ok r? =>
      cases r? with
      | none => exact ih m
      | some kv => exact ih (dictInsert kv.1 kv.2 m)

theorem houseTables_flat (m : List (String × HVal)) (ts : List Node) :
    houseTables m ts = houseDictFold m (rowsOf houseHeading ts) := by
  induction ts generalizing m with
  | nil => rfl
  | cons t ts ih =>
    by_cases h : tableMatches houseHeading t
    · simp only [houseTables, rowsOf, List.map_cons, List.flatten_cons, if_pos h]
      rw [houseDictFold_append]
      cases houseDictFold m (findAllTag "tr" t) with
      | error e => rfl
      | ok m' => simp only [ih]; rw [rowsOf]
    · simp only [houseTables, rowsOf, List.map_cons, List.flatten_cons, if_neg h,
        List.nil_append]
      rw [ih m, rowsOf]

/-! ### Helper lemmas: Python dict behaviour -/

theorem dictGet_dictInsert {α : Type} (k k' : String) (v : α) (m : List (String × α)) :
    dictGet k (dictInsert k' v m) = if k' == k then some v else dictGet k m := by
  induction m with
  | nil => simp [dictInsert, dictGet]
  | cons p rest ih =>
    by_cases h : p.1 = k'
    · simp only [dictInsert, show (p.1 == k') = true by simpa [beq_iff_eq] using h, if_pos,
        dictGet]
      by_cases hk : k' = k
      · simp [hk]
      · have hp : (p.1 == k) = false := by
          rw [beq_eq_false_iff_ne, h]
          exact hk
        simp [show (k' == k) = false by simpa [beq_eq_false_iff_ne] using hk, dictGet, hp]
    · simp only [dictInsert, show (p.1 == k') = false by simpa [beq_eq_false_iff_ne] using h,
        Bool.false_eq_true, if_neg, not_false_iff, dictGet]
      by_cases hp : p.1 = k
      · have hk : (k' == k) = false := by
          rw [beq_eq_false_iff_ne]
          intro hkk
          exact h (by rw [hp, hkk])
        simp [show (p.1 == k) = true by simpa [beq_iff_eq] using hp, hk]
      · simp [show (p.1 == k) = false by simpa [beq_eq_false_iff_ne] using hp, ih]

theorem mem_keys_dictInsert {α : Type} (x k : String) (v : α) (m : List (String × α)) :
    x ∈ (dictInsert k v m).map Prod.fst ↔ x = k ∨ x ∈ m.map Prod.fst := by
  induction m with
  | nil => simp [dictInsert, eq_comm]
  | cons p rest ih =>
    by_cases h : p.1 = k
    · subst h
      simp only [dictInsert, beq_self_eq_true, if_pos, List.map_cons, List.mem_cons]
      tauto
    · simp only [dictInsert, show (p.1 == k) = false by simpa [beq_eq_false_iff_ne] using h,
        Bool.false_eq_true, if_neg, not_false_iff, List.map_cons, List.mem_cons, ih]
      tauto

theorem nodup_keys_dictInsert {α : Type} (k : String) (v : α) (m : List (String × α))
    (h : (m.map Prod.fst).Nodup) : ((dictInsert k v m).map Prod.fst).Nodup := by
  induction m with
  | nil => simp [dictInsert]
  | cons p rest ih =>
    simp only [List.map_cons, List.nodup_cons] at h
    by_cases hp : p.1 = k
    · subst hp
      simp only [dictInsert, beq_self_eq_true, if_pos, List.map_cons, List.nodup_cons]
      exact ⟨h.1, h.2⟩
    · simp only [dictInsert, show (p.1 == k) = false by simpa [beq_eq_false_iff_ne] using hp,
        Bool.false_eq_true, if_neg, not_false_iff, List.map_cons, List.nodup_cons]
      refine ⟨fun hmem => ?_, ih h.2⟩
      rcases (mem_keys_dictInsert p.1 k v rest).mp hmem with heq | hmem'
      · exact hp heq
      · exact h.1 hmem'

theorem houseDictFold_eq_seq (rows : List Node) (m : List (String × HVal)) :
    houseDictFold m rows =
      match houseFoldSeq rows with
      | .error e => .error e
      | .ok s => .ok (s.foldl (fun acc kv => dictInsert kv.1 kv.2 acc) m) := by
  induction rows generalizing m with
  | nil => rfl
  | cons row rest ih =>
    rcases hpr : houseProcessRow row with e | r?
    · simp [houseDictFold, houseFoldSeq, hpr]
    · rcases r? with _ | kv
      · simp only [houseDictFold, houseFoldSeq, hpr]
        rw [ih m]
        cases houseFoldSeq rest <;> rfl
      · simp only [houseDictFold, houseFoldSeq, hpr]
        rw [ih (dictInsert kv.1 kv.2 m)]
        cases houseFoldSeq rest <;> rfl

theorem dictGet_foldl_ins {α : Type} (k : String) (s : List (String × α))
    (m : List (String × α)) :
    dictGet k (s.foldl (fun acc kv => dictInsert kv.1 kv.2 acc) m) =
      match (s.filter (fun p => p.1 == k)).getLast? with
      | some p => some p.2
      | none => dictGet k m := by
  induction s generalizing m with
  | nil => rfl
  | cons kv s ih =>
    simp only [List.foldl_cons, List.filter_cons]
    by_cases hk : kv.1 == k
    · simp only [hk, if_pos]
      rw [ih]
      cases hfs : (s.filter (fun p => p.1 == k)) with
      | nil =>
        simp [dictGet_dictInsert, hk]
      | cons q qs =>
        rw [List.getLast?_cons_cons]
        cases hql : (q :: qs).getLast? with
        | none => simp at hql
        | some p => rfl
    · simp only [hk, Bool.false_eq_true, if_neg, not_false_iff]
      rw [ih]
      cases (s.filter (fun p => p.1 == k)).getLast? with
      | none => simp [dictGet_dictInsert, hk]
      | some p => rfl

theorem nodup_keys_foldl_ins {α : Type} (s : List (String × α)) (m : List (String × α))
    (h : (m.map Prod.fst).Nodup) :
    ((s.foldl (fun acc kv => dictInsert kv.1 kv.2 acc) m).map Prod.fst).Nodup := by
  induction s generalizing m with
  | nil => exact h
  | cons kv s ih => exact ih _ (nodup_keys_dictInsert kv.1 kv.2 m h)

/-! ### Helper lemmas: per-row behaviour -/

theorem rowCandImg_src (row img : Node) (h : rowCandImg row = some img) :
    ∃ s, img.attr "src" = some s := by
  have hp : candImgPred img = true := List.find?_some h
  unfold candImgPred at hp
  rcases hs : img.attr "src" with _ | s
  · rw [hs] at hp
    simp at hp
  · exact ⟨s, rfl⟩

theorem rowPartyImg_src (row img : Node) (h : rowPartyImg row = some img) :
    ∃ s, img.attr "src" = some s := by
  have hp : partyImgPred img = true := List.find?_some h
  unfold partyImgPred at hp
  rcases hs : img.attr "src" with _ | s
  · rw [hs] at hp
    simp at hp
  · exact ⟨s, rfl⟩

theorem candChangePart_of_span_none (row : Node) (h : rowChangeSpan row = none) :
    candChangePart row = .ok none := by
  unfold candChangePart
  rw [h]

theorem candChangePart_of_noMatch (row span : Node) (h : rowChangeSpan row = some span)
    (hm : spanChangeVal span = none) : candChangePart row = .ok none := by
  unfold candChangePart
  simp only [h, hm]

theorem candidateProcessRow_of_changePart_none (row : Node)
    (h : candChangePart row = .ok none) :
    candidateProcessRow row = .ok none ∧ candidateProcessRowNC row = .ok none := by
  constructor
  · unfold candidateProcessRow
    rcases himg : rowCandImg row with _ | img
    · rfl
    · obtain ⟨s, hs⟩ := rowCandImg_src row img himg
      simp only [himg, nodeItem, hs]
      rcases hp : rowOddsP row with _ | p
      · rfl
      · dsimp only
        rcases hv : rowOddsVal p with _ | q
        · rfl
        · simp only [h]
          by_cases h1 : (1 : Rat) ≤ q
          · rw [if_pos h1]
          · rw [if_neg h1]
  · unfold candidateProcessRowNC
    rcases himg : rowCandImg row with _ | img
    · rfl
    · obtain ⟨s, hs⟩ := rowCandImg_src row img himg
      simp only [himg, nodeItem, hs]
      rcases hp : rowOddsP row with _ | p
      · rfl
      · dsimp only
        rcases hv : rowOddsVal p with _ | q
        · rfl
        · simp only [h]

theorem candidateProcessRow_of_oddsVal_none (row p : Node) (hp : rowOddsP row = some p)
    (hv : rowOddsVal p = none) :
    candidateProcessRow row = .ok none ∧ candidateProcessRowNC row = .ok none := by
  constructor
  · unfold candidateProcessRow
    rcases himg : rowCandImg row with _ | img
    · rfl
    · obtain ⟨s, hs⟩ := rowCandImg_src row img himg
      simp only [himg, nodeItem, hs, hp, hv]
  · unfold candidateProcessRowNC
    rcases himg : rowCandImg row with _ | img
    · rfl
    · obtain ⟨s, hs⟩ := rowCandImg_src row img himg
      simp only [himg, nodeItem, hs, hp, hv]

theorem candidateProcessRowNC_some_anatomy (row : Node) (r : CRow)
    (h : candidateProcessRowNC row = .ok (some r)) :
    ∃ img src p, rowCandImg row = some img ∧ img.attr "src" = some src ∧
      rowOddsP row = some p ∧ rowOddsVal p = some r.odds ∧
      candChangePart row = .ok (some (r.change, r.dir)) ∧ r.name = candKey src := by
  unfold candidateProcessRowNC at h
  rcases himg : rowCandImg row with _ | img
  · simp [himg] at h
  · obtain ⟨s, hs⟩ := rowCandImg_src row img himg
    simp only [himg, nodeItem, hs] at h
    rcases hp : rowOddsP row with _ | p
    · simp [hp] at h
    · simp only [hp] at h
      rcases hv : rowOddsVal p with _ | q
      · simp [hv] at h
      · simp only [hv] at h
        rcases hcp : candChangePart row with e | cp
        · simp [hcp] at h
        · simp only [hcp] at h
          rcases cp with _ | ⟨cv, dir⟩
          · simp at h
          · have hr : r = ⟨candKey s, q, cv, dir⟩ := by
              simp only [Except.ok.injEq, Option.some.injEq] at h
              exact h.symm
            subst hr
            exact ⟨img, s, p, rfl, hs, rfl, hv, rfl, rfl⟩

theorem candidateProcessRow_some_anatomy (row : Node) (r : CRow)
    (h : candidateProcessRow row = .ok (some r)) :
    1 ≤ r.odds ∧ candidateProcessRowNC row = .ok (some r) := by
  unfold candidateProcessRow at h
  rcases himg : rowCandImg row with _ | img
  · simp [himg] at h
  · obtain ⟨s, hs⟩ := rowCandImg_src row img himg
    simp only [himg, nodeItem, hs] at h
    rcases hp : rowOddsP row with _ | p
    · simp [hp] at h
    · simp only [hp] at h
      rcases hv : rowOddsVal p with _ | q
      · simp [hv] at h
      · simp only [hv] at h
        by_cases h1 : (1 : Rat) ≤ q
        · rw [if_pos h1] at h
          rcases hcp : candChangePart row with e | cp
          · simp [hcp] at h
          · simp only [hcp] at h
            rcases cp with _ | ⟨cv, dir⟩
            · simp at h
            · have hr : r = ⟨candKey s, q, cv, dir⟩ := by
                simp only [Except.ok.injEq, Option.some.injEq] at h
                exact h.symm
              subst hr
              refine ⟨h1, ?_⟩
              unfold candidateProcessRowNC
              simp only [himg, nodeItem, hs, hp, hv, hcp]
        · rw [if_neg h1] at h
          simp at h

theorem candidateProcessRow_of_NC_none (row : Node)
    (h : candidateProcessRowNC row = .ok none) : candidateProcessRow row = .ok none := by
  unfold candidateProcessRowNC at h
  unfold candidateProcessRow
  rcases himg : rowCandImg row with _ | img
  · rfl
  · obtain ⟨s, hs⟩ := rowCandImg_src row img himg
    simp only [himg, nodeItem, hs] at h ⊢
    rcases hp : rowOddsP row with _ | p
    · rfl
    · simp only [hp] at h ⊢
      rcases hv : rowOddsVal p with _ | q
      · rfl
      · simp only [hv] at h ⊢
        rcases hcp : candChangePart row with e | cp
        · simp [hcp] at h
        · simp only [hcp] at h ⊢
          rcases cp with _ | ⟨cv, dir⟩
          · by_cases h1 : (1 : Rat) ≤ q
            · rw [if_pos h1]
            · rw [if_neg h1]
          · simp at h

theorem candidateProcessRow_of_NC_some (row : Node) (r : CRow)
    (h : candidateProcessRowNC row = .ok (some r)) :
    candidateProcessRow row = .ok (if 1 ≤ r.odds then some r else none) := by
  obtain ⟨img, src, p, himg, hs, hp, hv, hcp, hname⟩ :=
    candidateProcessRowNC_some_anatomy row r h
  unfold candidateProcessRow
  simp only [himg, nodeItem, hs, hp, hv, hcp]
  by_cases h1 : (1 : Rat) ≤ r.odds
  · rw [if_pos h1, if_pos h1]
    have hr : (⟨candKey src, r.odds, r.change, r.dir⟩ : CRow) = r := by
      rw [← hname]
    rw [hr]
  · rw [if_neg h1, if_neg h1]

/-! ### Helper lemmas: candidate fold properties -/

theorem candFold_odds_ge_one (rows : List Node) (c : List CRow) (h : candFold rows = .ok c) :
    ∀ r ∈ c, 1 ≤ r.odds := by
  induction rows generalizing c with
  | nil =>
    simp only [candFold, Except.ok.injEq] at h
    subst h
    simp
  | cons row rest ih =>
    unfold candFold at h
    rcases hpr : candidateProcessRow row with e | r?
    · simp [hpr] at h
    · simp only [hpr] at h
      rcases hcf : candFold rest with e | l
      · simp [hcf] at h
      · simp only [hcf] at h
        rcases r? with _ | r
        · simp only [Except.ok.injEq] at h
          subst h
          exact ih l hcf
        · simp only [Except.ok.injEq] at h
          subst h
          intro r' hr'
          rcases List.mem_cons.mp hr' with rfl | hmem
          · exact (candidateProcessRow_some_anatomy row r' hpr).1
          · exact ih l hcf r' hmem

theorem candFold_of_NC (rows : List Node) (c' : List CRow) (h : candFoldNC rows = .ok c') :
    candFold rows = .ok (c'.filter (fun r => decide (1 ≤ r.odds))) := by
  induction rows generalizing c' with
  | nil =>
    simp only [candFoldNC, Except.ok.injEq] at h
    subst h
    rfl
  | cons row rest ih =>
    unfold candFoldNC at h
    unfold candFold
    rcases hpr : candidateProcessRowNC row with e | r?
    · simp [hpr] at h
    · simp only [hpr] at h
      rcases hcf : candFoldNC rest with e | l
      · simp [hcf] at h
      · simp only [hcf] at h
        rcases r? with _ | r
        · simp only [Except.ok.injEq] at h
          subst h
          rw [candidateProcessRow_of_NC_none row hpr, ih l hcf]
        · simp only [Except.ok.injEq] at h
          subst h
          rw [candidateProcessRow_of_NC_some row r hpr, ih l hcf]
          by_cases h1 : (1 : Rat) ≤ r.odds
          · rw [if_pos h1]
            simp [List.filter_cons, h1]
          · rw [if_neg h1]
            simp [List.filter_cons, h1]

theorem candFold_cons_skip (post : List Node) (bad : Node)
    (hb : candidateProcessRow bad = .ok none) :
    candFold (bad :: post) = candFold post := by
  conv_lhs => rw [candFold]
  simp only [hb]
  cases candFold post <;> rfl

theorem candFold_middle_skip (pre post : List Node) (bad : Node)
    (hb : candidateProcessRow bad = .ok none) :
    candFold (pre ++ bad :: post) = candFold (pre ++ post) := by
  rw [candFold_append, candFold_append, candFold_cons_skip post bad hb]

theorem candFold_middle_error (pre post : List Node) (bad : Node)
    (hb : candidateProcessRow bad = .error ()) :
    candFold (pre ++ bad :: post) = .error () := by
  rw [candFold_append]
  have hbp : candFold (bad :: post) = .error () := by
    conv_lhs => rw [candFold]
    simp only [hb]
  rw [hbp]
  cases candFold pre with
  | error e => rfl
  | ok x => rfl

/-! ### Helper lemmas: structure of the built documents -/

theorem isTag_ne {t t' : String} {n : Node} (h : isTag t n = true) (hne : t ≠ t') :
    isTag t' n = false := by
  cases n with
  | elem tg attrs cs =>
    simp only [isTag, beq_iff_eq] at h
    subst h
    simpa [isTag, beq_eq_false_iff_ne] using hne
  | text s => rfl

theorem plainRow_isTr {n : Node} (h : plainRow n = true) : isTag "tr" n = true := by
  unfold plainRow at h
  exact (Bool.and_eq_true _ _ |>.mp h).1

theorem plainRow_desc {n : Node} (h : plainRow n = true) :
    ∀ d ∈ descendants n,
      isTag "tr" d = false ∧ isTag "table" d = false ∧ isTag "th" d = false := by
  unfold plainRow at h
  have h2 := (Bool.and_eq_true _ _ |>.mp h).2
  rw [List.all_eq_true] at h2
  intro d hd
  have h3 := h2 d hd
  simp only [Bool.not_eq_true', Bool.or_eq_false_iff] at h3
  exact ⟨h3.1.1, h3.1.2, h3.2⟩

theorem descList_filter_plain_none (t : String) (rows : List Node)
    (hr : rows.all plainRow = true) (ht : t = "table" ∨ t = "th") :
    (descList rows).filter (isTag t) = [] := by
  induction rows with
  | nil => rfl
  | cons r rest ih =>
    simp only [List.all_cons, Bool.and_eq_true] at hr
    simp only [descList, List.filter_cons, List.filter_append]
    have h1 : isTag t r = false := by
      rcases ht with rfl | rfl
      · exact isTag_ne (plainRow_isTr hr.1) (by decide)
      · exact isTag_ne (plainRow_isTr hr.1) (by decide)
    have h2 : (descendants r).filter (isTag t) = [] := by
      rw [List.filter_eq_nil_iff]
      intro d hdd
      rcases ht with rfl | rfl
      · simp [(plainRow_desc hr.1 d hdd).2.1]
      · simp [(plainRow_desc hr.1 d hdd).2.2]
    simp only [h1, Bool.false_eq_true, if_neg, not_false_iff]
    rw [h2, ih hr.2, List.nil_append]

theorem descList_filter_plain_tr (rows : List Node) (hr : rows.all plainRow = true) :
    (descList rows).filter (isTag "tr") = rows := by
  induction rows with
  | nil => rfl
  | cons r rest ih =>
    simp only [List.all_cons, Bool.and_eq_true] at hr
    simp only [descList, List.filter_cons, List.filter_append, plainRow_isTr hr.1, if_pos]
    have hd : (descendants r).filter (isTag "tr") = [] := by
      rw [List.filter_eq_nil_iff]
      intro d hdd
      simp [(plainRow_desc hr.1 d hdd).1]
    rw [hd, ih hr.2]
    rfl

theorem descendants_mkDoc (h : String) (rows : List Node) :
    descendants (mkDoc h rows) =
      Node.elem "table" [] (hdr h :: rows) ::
        hdr h :: Node.elem "th" [] [.text h] :: Node.text h :: descList rows := by
  show descList [Node.elem "table" [] (hdr h :: rows)] = _
  simp [descList, descendants, hdr, List.append_nil]

theorem descendants_table (h : String) (rows : List Node) :
    descendants (Node.elem "table" [] (hdr h :: rows)) =
      hdr h :: Node.elem "th" [] [.text h] :: Node.text h :: descList rows := by
  show descList (hdr h :: rows) = _
  simp [descList, descendants, hdr, List.append_nil]

theorem findAllTag_table_mkDoc (h : String) (rows : List Node)
    (hr : rows.all plainRow = true) :
    findAllTag "table" (mkDoc h rows) = [.elem "table" [] (hdr h :: rows)] := by
  unfold findAllTag
  rw [descendants_mkDoc]
  simp only [List.filter_cons,
    show isTag "table" (Node.elem "table" [] (hdr h :: rows)) = true from rfl,
    show isTag "table" (hdr h) = false from rfl,
    show isTag "table" (Node.elem "th" [] [.text h]) = false from rfl,
    show isTag "table" (Node.text h) = false from rfl,
    if_pos, Bool.false_eq_true, if_neg, not_false_iff]
  rw [descList_filter_plain_none "table" rows hr (Or.inl rfl)]

theorem findAllTag_tr_table (h : String) (rows : List Node)
    (hr : rows.all plainRow = true) :
    findAllTag "tr" (Node.elem "table" [] (hdr h :: rows)) = hdr h :: rows := by
  unfold findAllTag
  rw [descendants_table]
  simp only [List.filter_cons,
    show isTag "tr" (hdr h) = true from rfl,
    show isTag "tr" (Node.elem "th" [] [.text h]) = false from rfl,
    show isTag "tr" (Node.text h) = false from rfl,
    if_pos, Bool.false_eq_true, if_neg, not_false_iff]
  rw [descList_filter_plain_tr rows hr]

theorem tableMatches_table (h h' : String) (rows : List Node) :
    tableMatches h' (Node.elem "table" [] (hdr h :: rows)) = strContains h h' := by
  unfold tableMatches findFirst
  rw [descendants_table]
  rw [List.find?_cons_of_neg _ (by simp [hdr, isTag]),
    List.find?_cons_of_pos _ (by simp [isTag])]
  show strContains (h ++ "") h' = strContains h h'
  rw [String.append_empty]

theorem selectRows_mkDoc (h h' : String) (rows : List Node)
    (hr : rows.all plainRow = true) (hmatch : strContains h h' = true) :
    selectRows h' (mkDoc h rows) = hdr h :: rows := by
  unfold selectRows rowsOf
  rw [findAllTag_table_mkDoc h rows hr]
  simp only [List.map_cons, List.map_nil, tableMatches_table, hmatch, if_pos,
    List.flatten, findAllTag_tr_table h rows hr, List.append_nil]

theorem extractCandidateOdds_mkDoc (rows : List Node) (hr : rows.all plainRow = true) :
    extractCandidateOdds (mkDoc candHeading rows) =
      match candFold rows with
      | .error e => .error e
      | .ok c => .ok ((pySortDesc c).take 4) := by
  unfold extractCandidateOdds candidateCollect
  rw [candTables_flat,
    show rowsOf candHeading (findAllTag "table" (mkDoc candHeading rows)) =
      selectRows candHeading (mkDoc candHeading rows) from rfl,
    selectRows_mkDoc candHeading candHeading rows hr (by decide),
    candFold_cons_skip rows (hdr candHeading) (by rfl)]

/-! ### Helper lemmas: the candidate sort -/

instance : IsTotal CRow (fun a b => b.odds ≤ a.odds) :=
  ⟨fun a b => le_total b.odds a.odds⟩

instance : IsTrans CRow (fun a b => b.odds ≤ a.odds) :=
  ⟨fun _ _ _ hab hbc => le_trans hbc hab⟩

theorem pySortDesc_perm (l : List CRow) : (pySortDesc l).Perm l :=
  List.perm_insertionSort _ l

theorem pySortDesc_sorted (l : List CRow) :
    (pySortDesc l).Sorted (fun a b => b.odds ≤ a.odds) :=
  List.sorted_insertionSort _ l

theorem orderedInsert_filter_val (a : CRow) (l : List CRow) (q : Rat) :
    (List.orderedInsert (fun x y => y.odds ≤ x.odds) a l).filter (fun r => r.odds == q) =
      if a.odds == q then a :: l.filter (fun r => r.odds == q)
      else l.filter (fun r => r.odds == q) := by
  induction l with
  | nil =>
    by_cases ha : a.odds == q <;>
      simp [List.orderedInsert, List.filter_cons, ha]
  | cons b l ih =>
    simp only [List.orderedInsert]
    by_cases hab : b.odds ≤ a.odds
    · rw [if_pos hab]
      by_cases ha : a.odds == q <;> simp [List.filter_cons, ha]
    · rw [if_neg hab]
      simp only [List.filter_cons, ih]
      by_cases hb : b.odds == q
      · by_cases ha : a.odds == q
        · exfalso
          rw [beq_iff_eq] at ha hb
          exact hab (by rw [ha, hb])
        · simp [hb, ha]
      · by_cases ha : a.odds == q <;> simp [hb, ha]

theorem pySortDesc_filter_val (l : List CRow) (q : Rat) :
    (pySortDesc l).filter (fun r => r.odds == q) = l.filter (fun r => r.odds == q) := by
  unfold pySortDesc
  induction l with
  | nil => rfl
  | cons a l ih =>
    simp only [List.insertionSort, orderedInsert_filter_val, ih, List.filter_cons]

/-! ### Helper lemmas: party row behaviour -/

theorem partyStep_span_none (st : PState) (row img : Node) (src : String) (p : Node) (q : Rat)
    (himg : rowPartyImg row = some img) (hs : img.attr "src" = some src)
    (hp : rowOddsP row = some p) (hv : rowOddsVal p = some q)
    (hspan : rowChangeSpan row = none) :
    partyStep st row = .ok ⟨dictInsert (partyKey src) q st.odds, st.changes, st.dirs⟩ := by
  unfold partyStep
  simp only [himg, nodeItem, hs, hp, hv, hspan]

theorem partyStep_span_noMatch (st : PState) (row img : Node) (src : String) (p : Node)
    (q : Rat) (span : Node)
    (himg : rowPartyImg row = some img) (hs : img.attr "src" = some src)
    (hp : rowOddsP row = some p) (hv : rowOddsVal p = some q)
    (hspan : rowChangeSpan row = some span) (hm : spanChangeVal span = none) :
    partyStep st row = .ok ⟨dictInsert (partyKey src) q st.odds, st.changes, st.dirs⟩ := by
  unfold partyStep
  simp only [himg, nodeItem, hs, hp, hv, hspan, hm]

theorem partyStep_oddsVal_none (st : PState) (row p : Node)
    (hp : rowOddsP row = some p) (hv : rowOddsVal p = none) :
    partyStep st row = .ok st := by
  unfold partyStep
  rcases himg : rowPartyImg row with _ | img
  · rfl
  · obtain ⟨s, hs⟩ := rowPartyImg_src row img himg
    simp only [himg, nodeItem, hs, hp, hv]

theorem partyStep_noIcon_noDir (st : PState) (row img : Node) (src : String) (p : Node)
    (q : Rat) (span : Node) (cv : Rat)
    (himg : rowPartyImg row = some img) (hs : img.attr "src" = some src)
    (hp : rowOddsP row = some p) (hv : rowOddsVal p = some q)
    (hspan : rowChangeSpan row = some span) (hm : spanChangeVal span = some cv)
    (hni : findAnyImg span = none) (hdir : dictGet (partyKey src) st.dirs = none) :
    partyStep st row = .error () := by
  unfold partyStep
  simp only [himg, nodeItem, hs, hp, hv, hspan, hm, hni, hdir]

theorem partyStep_icon (st : PState) (row img : Node) (src : String) (p : Node) (q : Rat)
    (span : Node) (cv : Rat) (cimg : Node) (csrc : String)
    (himg : rowPartyImg row = some img) (hs : img.attr "src" = some src)
    (hp : rowOddsP row = some p) (hv : rowOddsVal p = some q)
    (hspan : rowChangeSpan row = some span) (hm : spanChangeVal span = some cv)
    (hci : findAnyImg span = some cimg) (hcs : cimg.attr "src" = some csrc) :
    partyStep st row = .ok ⟨dictInsert (partyKey src) q st.odds,
      dictInsert (partyKey src) cv st.changes,
      dictInsert (partyKey src) (if strContains csrc "red.png" then "down" else "up")
        st.dirs⟩ := by
  unfold partyStep
  simp only [himg, nodeItem, hs, hp, hv, hspan, hm, hci, hcs]

theorem houseProcessRow_of_NC_none (row : Node)
    (h : candidateProcessRowNC row = .ok none) : houseProcessRow row = .ok none := by
  unfold houseProcessRow
  simp only [h]

/-! ### Helper lemmas: Python split -/

theorem splitC_ne_nil (sep : Char) (l : List Char) : pySplitC sep l ≠ [] := by
  cases l with
  | nil => simp [pySplitC]
  | cons c cs =>
    unfold pySplitC
    cases pySplitC sep cs with
    | nil => simp
    | cons g gs =>
      by_cases h : c == sep
      · simp [h]
      · simp [h]

theorem splitC_no_sep (sep : Char) (l : List Char) (h : sep ∉ l) :
    pySplitC sep l = [l] := by
  induction l with
  | nil => rfl
  | cons c cs ih =>
    simp only [List.mem_cons, not_or] at h
    unfold pySplitC
    rw [ih h.2]
    have hc : (c == sep) = false := by
      rw [beq_eq_false_iff_ne]
      exact fun hh => h.1 (by rw [hh])
    simp [hc]

theorem splitC_headD_append (sep : Char) (a b : List Char) (ha : sep ∉ a) :
    (pySplitC sep (a ++ sep :: b)).headD [] = a := by
  induction a with
  | nil =>
    simp only [List.nil_append]
    unfold pySplitC
    cases hsp : pySplitC sep b with
    | nil => exact absurd hsp (splitC_ne_nil sep b)
    | cons g gs => simp
  | cons c a' ih =>
    simp only [List.mem_cons, not_or] at ha
    simp only [List.cons_append]
    unfold pySplitC
    cases hsp : pySplitC sep (a' ++ sep :: b) with
    | nil => exact absurd hsp (splitC_ne_nil sep _)
    | cons g gs =>
      have hc : (c == sep) = false := by
        rw [beq_eq_false_iff_ne]
        exact fun hh => ha.1 (by rw [hh])
      simp only [hc, Bool.false_eq_true, if_neg, not_false_iff, List.headD_cons]
      have := ih ha.2
      rw [hsp] at this
      simp only [List.headD_cons] at this
      rw [this]

theorem splitC_length_two (sep : Char) (l : List Char) (h : sep ∈ l) :
    2 ≤ (pySplitC sep l).length := by
  induction l with
  | nil => simp at h
  | cons c cs ih =>
    unfold pySplitC
    cases hsp : pySplitC sep cs with
    | nil => exact absurd hsp (splitC_ne_nil sep cs)
    | cons g gs =>
      by_cases hc : c == sep
      · simp [hc]
      · have hcs : sep ∈ cs := by
          rcases List.mem_cons.mp h with rfl | hmem
          · exact absurd (beq_self_eq_true sep) hc
          · exact hmem
        have := ih hcs
        rw [hsp] at this
        simp only [List.length_cons] at this ⊢
        simp only [hc, Bool.false_eq_true, if_neg, not_false_iff, List.length_cons]
        omega

theorem getLastD_of_ne_nil {α : Type} (l : List α) (d d' : α) (h : l ≠ []) :
    l.getLastD d = l.getLastD d' := by
  cases l with
  | nil => exact absurd rfl h
  | cons x xs => rw [List.getLastD_cons, List.getLastD_cons]

theorem splitC_cons_eq (sep c : Char) (rest : List Char) (g : List Char)
    (gs : List (List Char)) (hsp : pySplitC sep rest = g :: gs) :
    pySplitC sep (c :: rest) = if c == sep then [] :: g :: gs else (c :: g) :: gs := by
  conv_lhs => rw [pySplitC]
  rw [hsp]

theorem splitC_getLastD_append (sep : Char) (a b : List Char) :
    (pySplitC sep (a ++ sep :: b)).getLastD [] = (pySplitC sep b).getLastD [] := by
  induction a with
  | nil =>
    rw [List.nil_append]
    cases hsp : pySplitC sep b with
    | nil => exact absurd hsp (splitC_ne_nil sep b)
    | cons g gs =>
      rw [splitC_cons_eq sep sep b g gs hsp]
      simp only [beq_self_eq_true, if_pos, List.getLastD_cons]
  | cons c a' ih =>
    rw [List.cons_append]
    cases hsp : pySplitC sep (a' ++ sep :: b) with
    | nil => exact absurd hsp (splitC_ne_nil sep _)
    | cons g gs =>
      rw [splitC_cons_eq sep c _ g gs hsp]
      rw [hsp] at ih
      by_cases hc : (c == sep) = true
      · rw [if_pos hc, List.getLastD_cons]
        exact ih
      · rw [if_neg (by simp [hc]), List.getLastD_cons]
        rw [List.getLastD_cons] at ih
        have hlen : 2 ≤ (pySplitC sep (a' ++ sep :: b)).length :=
          splitC_length_two sep _ (by simp)
        rw [hsp] at hlen
        simp only [List.length_cons] at hlen
        have hgs : gs ≠ [] := by
          intro hgsnil
          rw [hgsnil] at hlen
          simp at hlen
        rw [← ih]
        exact getLastD_of_ne_nil gs (c :: g) g hgs

theorem stripCharEq_append (c : Char) (d n : List Char) (hd : d ≠ []) (hn : n ≠ [])
    (hdc : c ∉ d) (hnc : c ∉ n) :
    stripCharEq c (d ++ c :: n) = d ++ c :: n := by
  unfold stripCharEq dropEndWhile
  have hfront : (d ++ c :: n).dropWhile (· == c) = d ++ c :: n := by
    cases d with
    | nil => exact absurd rfl hd
    | cons x xs =>
      have hx : (x == c) = false := by
        rw [beq_eq_false_iff_ne]
        exact fun hh => hdc (by rw [hh]; exact List.mem_cons_self _ _)
      simp [List.dropWhile_cons, hx]
  rw [hfront]
  have hrev : (d ++ c :: n).reverse = n.reverse ++ c :: d.reverse := by
    simp
  rw [hrev]
  have hback : (n.reverse ++ c :: d.reverse).dropWhile (· == c) =
      n.reverse ++ c :: d.reverse := by
    cases hnr : n.reverse with
    | nil => exact absurd (by simpa using hnr) hn
    | cons y ys =>
      have hy : y ∈ n := by
        have hmemr : y ∈ n.reverse := by
          rw [hnr]
          exact List.mem_cons_self _ _
        simpa [List.mem_reverse] using hmemr
      have hyc : (y == c) = false := by
        rw [beq_eq_false_iff_ne]
        exact fun hh => hnc (hh ▸ hy)
      simp [List.dropWhile_cons, hyc]
  rw [hback]
  simp

theorem candKey_anatomy (d n e : List Char) (hnDot : '.' ∉ n)
    (hnSl : '/' ∉ n) (heSl : '/' ∉ e) :
    candKey (String.mk (d ++ '/' :: n ++ '.' :: e)) = String.mk n := by
  have hno : '/' ∉ n ++ '.' :: e := by
    simp only [List.mem_append, List.mem_cons, not_or]
    exact ⟨hnSl, by decide, heSl⟩
  have h1 : (pySplitC '/' (d ++ '/' :: (n ++ '.' :: e))).getLastD [] = n ++ '.' :: e := by
    rw [splitC_getLastD_append, splitC_no_sep '/' _ hno]
    rfl
  unfold candKey pySplitLastSlash pySplitHeadDot
  simp only [List.cons_append, List.append_assoc, h1, splitC_headD_append '.' n e hnDot]

theorem partyKey_anatomy (d n e : List Char) (hd : d ≠ []) (hn : n ≠ [])
    (hdDot : '.' ∉ d) (hdSl : '/' ∉ d) (hnDot : '.' ∉ n) (hnSl : '/' ∉ n) :
    partyKey (String.mk (d ++ '/' :: n ++ '.' :: e)) = String.mk (d ++ '/' :: n) := by
  have hno : '.' ∉ d ++ '/' :: n := by
    simp only [List.mem_append, List.mem_cons, not_or]
    exact ⟨hdDot, by decide, hnDot⟩
  have h1 : (pySplitC '.' (d ++ '/' :: (n ++ '.' :: e))).headD [] = d ++ '/' :: n := by
    have h2 := splitC_headD_append '.' (d ++ '/' :: n) e hno
    simpa [List.append_assoc, List.cons_append] using h2
  unfold partyKey pySplitHeadDot pyStripChar
  simp only [List.cons_append, List.append_assoc, h1,
    stripCharEq_append '/' d n hd hn hdSl hnSl]

/-! ### Concrete test documents -/

/-- Two tables whose headings both contain the candidate substring; one data
row each. -/
def c1doc : Node :=
  .elem "html" []
    [.elem "table" [] [hdr candHeading, mkRow [mkImg "a.png", mkP "10%", mkSpan "+1%" []]],
     .elem "table" [] [hdr candHeading, mkRow [mkImg "b.png", mkP "20%", mkSpan "+2%" []]]]

/-- A candidate row with a qualifying image and headline `37.5%` but no
change span at all. -/
def c2row : Node := mkRow [mkImg "smith.png", mkP "37.5%"]

/-- Candidate document holding only `c2row`. -/
def c2doc : Node := mkDoc candHeading [c2row]

/-- A party row with a qualifying image, a parsing headline and no change
span. -/
def c2prow : Node := mkRow [mkImg "REP.png", mkP "52%"]

/-- A party row whose change span contains `+1.0%` and an image *without* a
`src` attribute. -/
def c3badRow : Node :=
  mkRow [mkImg "REP.png", mkP "52%", mkSpan "+1.0%" [.elem "img" [] []]]

/-- A well-formed party row. -/
def c3demRow : Node := mkRow [mkImg "DEM.png", mkP "48%"]

/-- Party document: the broken row followed by the good row. -/
def c3crashDoc : Node := mkDoc partyHeading [c3badRow, c3demRow]

/-- Party document with only the good row. -/
def c3goodDoc : Node := mkDoc partyHeading [c3demRow]

/-- A candidate row whose headline text `N/A%` fails numeric parsing. -/
def c3naRow : Node := mkRow [mkImg "a.png", mkP "N/A%"]

/-- A well-formed candidate row. -/
def c3goodRow : Node := mkRow [mkImg "b.png", mkP "20%", mkSpan "+2%" []]

/-- A document with no tables at all. -/
def c4docA : Node := .elem "html" [] [.elem "p" [] [.text "nothing here"]]

/-- A document whose candidate table exists but whose only row fails
parsing. -/
def c4docB : Node := mkDoc candHeading [c3naRow]

/-- Party document whose headline reads `150%`. -/
def c5doc : Node := mkDoc partyHeading [mkRow [mkImg "REP.png", mkP "150%"]]

/-- Party document whose headline reads `%%51` (leading percent signs). -/
def c5doc2 : Node := mkDoc partyHeading [mkRow [mkImg "REP.png", mkP "%%51"]]

/-- Candidate document whose change icon is named `colored.png` — not the
decrease icon, but its path contains the substring `red`. -/
def c6doc : Node :=
  mkDoc candHeading
    [mkRow [mkImg "smith.png", mkP "42%", mkSpan "+3.2%" [mkImg "colored.png"]]]

/-- A candidate row whose change span has a parsable value and no nested
image at all. -/
def c6wRow : Node := mkRow [mkImg "smith.png", mkP "42%", mkSpan "+1%" []]

/-- A party row with a decrease icon inside the change span. -/
def c6prow : Node :=
  mkRow [mkImg "REP.png", mkP "52%", mkSpan "-1.5%" [mkImg "red.png"]]

/-- Candidate document with five rows of percentages 0.5, 60, 25, 10, 4.5. -/
def c7doc : Node :=
  mkDoc candHeading
    [mkRow [mkImg "e.png", mkP "0.5%", mkSpan "+1%" []],
     mkRow [mkImg "a.png", mkP "60%", mkSpan "+1%" []],
     mkRow [mkImg "b.png", mkP "25%", mkSpan "+1%" []],
     mkRow [mkImg "c.png", mkP "10%", mkSpan "+1%" []],
     mkRow [mkImg "d.png", mkP "4.5%", mkSpan "+1%" []]]

/-- The expected candidate extraction result for `c7doc`. -/
def c7expected : List CRow :=
  [⟨"a", 60, 1, "up"⟩, ⟨"b", 25, 1, "up"⟩, ⟨"c", 10, 1, "up"⟩, ⟨"d", 9 / 2, 1, "up"⟩]

/-- House document with two rows keyed `dem` (45% then 55%). -/
def c8doc : Node :=
  mkDoc houseHeading
    [mkRow [mkImg "dem.png", mkP "45%", mkSpan "+2%" []],
     mkRow [mkImg "dem.png", mkP "55%", mkSpan "+2%" []]]

/-- Party document whose entity icon path has a directory component. -/
def c9doc : Node := mkDoc partyHeading [mkRow [mkImg "images/REP.png", mkP "52%"]]

/-! ### The claims -/

/-- C1 (amended): table selection is *not* first-match.  The loops carry no
`break`, so every table whose first heading cell text contains the category
substring contributes rows: each extractor processes exactly the
concatenation, in document order, of the row lists of *all* matching
tables (`selectRows`). -/
theorem claim1 (soup : Node) :
    candidateCollect soup = candFold (selectRows candHeading soup) ∧
    (∀ st, partyTables st (findAllTag "table" soup) =
      partyFold st (selectRows partyHeading soup)) ∧
    (∀ m, houseTables m (findAllTag "table" soup) =
      houseDictFold m (selectRows houseHeading soup)) :=
  ⟨candTables_flat _, fun st => partyTables_flat st _, fun m => houseTables_flat m _⟩

/-- C1 counterexample: in a document with two tables matching the candidate
heading, the second table's row (entity `b`) appears in the extraction
result, so rows of a later matching table are *not* ignored. -/
theorem claim1_cex :
    extractCandidateOdds c1doc =
      .ok [⟨"b", 20, 2, "up"⟩, ⟨"a", 10, 1, "up"⟩] ∧
    extractCandidateOdds c1doc ≠ .ok [⟨"a", 10, 1, "up"⟩] := by
  have h : extractCandidateOdds c1doc = .ok [⟨"b", 20, 2, "up"⟩, ⟨"a", 10, 1, "up"⟩] := by
    with_unfolding_all rfl
  refine ⟨h, fun hc => ?_⟩
  rw [h] at hc
  simp only [Except.ok.injEq] at hc
  exact absurd (congrArg List.length hc) (by simp)

/-- C2 (amended): for a row with a qualifying image and a parsing headline
but no change span (or a span without a signed-number-percent match), only
the Party extractor still emits the row — into the odds dict, with *no*
entry in the changes or directions dicts (`None`, not a zero change).  The
Candidate and ChamberControl extractors drop such a row entirely. -/
theorem claim2 :
    (∀ (st : PState) (row img : Node) (src : String) (p : Node) (q : Rat),
      rowPartyImg row = some img → img.attr "src" = some src →
      rowOddsP row = some p → rowOddsVal p = some q → rowChangeSpan row = none →
      partyStep st row = .ok ⟨dictInsert (partyKey src) q st.odds, st.changes, st.dirs⟩) ∧
    (∀ (st : PState) (row img : Node) (src : String) (p : Node) (q : Rat) (span : Node),
      rowPartyImg row = some img → img.attr "src" = some src →
      rowOddsP row = some p → rowOddsVal p = some q → rowChangeSpan row = some span →
      spanChangeVal span = none →
      partyStep st row = .ok ⟨dictInsert (partyKey src) q st.odds, st.changes, st.dirs⟩) ∧
    (∀ row : Node, rowChangeSpan row = none →
      candidateProcessRow row = .ok none ∧ houseProcessRow row = .ok none) ∧
    (∀ row span : Node, rowChangeSpan row = some span → spanChangeVal span = none →
      candidateProcessRow row = .ok none ∧ houseProcessRow row = .ok none) := by
  refine ⟨partyStep_span_none, partyStep_span_noMatch, fun row h => ?_, fun row span h hm => ?_⟩
  · have hcp := candChangePart_of_span_none row h
    have hc := candidateProcessRow_of_changePart_none row hcp
    exact ⟨hc.1, houseProcessRow_of_NC_none row hc.2⟩
  · have hcp := candChangePart_of_noMatch row span h hm
    have hc := candidateProcessRow_of_changePart_none row hcp
    exact ⟨hc.1, houseProcessRow_of_NC_none row hc.2⟩

/-- C2 counterexample: a candidate row with a qualifying image and headline
`37.5%` but no change span yields an *empty* extraction result — the row is
not emitted with a zero change and Unknown direction. -/
theorem claim2_cex : extractCandidateOdds c2doc = .ok [] := by
  with_unfolding_all rfl

/-- C2 witness. -/
theorem claim2_w :
    partyStep ⟨[], [], []⟩ c2prow = .ok ⟨[("REP", 52)], [], []⟩ ∧
    candidateProcessRow c2row = .ok none ∧ houseProcessRow c2row = .ok none := by
  refine ⟨?_, (claim2.2.2.1 c2row (by with_unfolding_all rfl)).1,
    (claim2.2.2.1 c2row (by with_unfolding_all rfl)).2⟩
  have h := claim2.1 ⟨[], [], []⟩ c2prow (mkImg "REP.png") "REP.png" (mkP "52%") 52
    (by with_unfolding_all rfl) (by with_unfolding_all rfl) (by with_unfolding_all rfl)
    (by with_unfolding_all rfl) (by with_unfolding_all rfl)
  rw [h]
  with_unfolding_all rfl

/-- C3 (amended): a row whose headline percentage fails to parse — or any
row whose processing yields a skip — is dropped with the other rows of its
table unaffected; but a structural problem that raises (a change icon with
no `src` attribute) aborts the *whole* category extraction, losing every
row.  The exception is then caught by `_fetch_and_parse`, so no exception
reaches the command caller. -/
theorem claim3 (pre post : List Node) (bad : Node)
    (hpre : pre.all plainRow = true) (hpost : post.all plainRow = true)
    (hbad : plainRow bad = true) :
    (candidateProcessRow bad = .ok none →
      extractCandidateOdds (mkDoc candHeading (pre ++ bad :: post)) =
        extractCandidateOdds (mkDoc candHeading (pre ++ post))) ∧
    (candidateProcessRow bad = .error () →
      extractCandidateOdds (mkDoc candHeading (pre ++ bad :: post)) = .error () ∧
      fetchAndParse (some (mkDoc candHeading (pre ++ bad :: post)))
        extractCandidateOdds = none) := by
  have hall1 : (pre ++ bad :: post).all plainRow = true := by
    rw [List.all_append, List.all_cons]
    simp [hpre, hpost, hbad]
  have hall2 : (pre ++ post).all plainRow = true := by
    rw [List.all_append]
    simp [hpre, hpost]
  constructor
  · intro hb
    rw [extractCandidateOdds_mkDoc _ hall1, extractCandidateOdds_mkDoc _ hall2,
      candFold_middle_skip pre post bad hb]
  · intro hb
    have herr : extractCandidateOdds (mkDoc candHeading (pre ++ bad :: post)) = .error () := by
      rw [extractCandidateOdds_mkDoc _ hall1, candFold_middle_error pre post bad hb]
    refine ⟨herr, ?_⟩
    unfold fetchAndParse
    dsimp only
    rw [herr]

/-- C3 counterexample: a missing `src` on one row's change icon makes the
whole party extraction raise (caught by the fetch wrapper as `none`), so
the well-formed DEM row of the same table is lost — extraction of the
remaining rows does not continue. -/
theorem claim3_cex :
    extractPartyOdds c3crashDoc = .error () ∧
    extractPartyOdds c3goodDoc = .ok (none, some 48, none, none, none, none) ∧
    fetchAndParse (some c3crashDoc) extractPartyOdds = none := by
  refine ⟨by with_unfolding_all rfl, by with_unfolding_all rfl, ?_⟩
  show fetchAndParse (some c3crashDoc) extractPartyOdds = none
  with_unfolding_all rfl

/-- C3 witness. -/
theorem claim3_w :
    extractCandidateOdds (mkDoc candHeading ([] ++ c3naRow :: [c3goodRow])) =
      extractCandidateOdds (mkDoc candHeading ([] ++ [c3goodRow])) ∧
    extractCandidateOdds (mkDoc candHeading ([] ++ [c3goodRow])) =
      .ok [⟨"b", 20, 2, "up"⟩] := by
  refine ⟨?_, by with_unfolding_all rfl⟩
  exact (claim3 [] [c3goodRow] c3naRow (by with_unfolding_all rfl)
    (by with_unfolding_all rfl) (by with_unfolding_all rfl)).1 (by with_unfolding_all rfl)

/-- C4 (amended): the two category-level failure outcomes are *not*
distinguishable: "no matching table" and "table matched but no rows
survived" both return the same empty value (the all-`None` 6-tuple, the
empty list, the empty dict), as a value and never as a raised error.  In
particular any document with zero tables yields the empty result for every
category. -/
theorem claim4 (soup : Node) (h : findAllTag "table" soup = []) :
    extractPartyOdds soup = .ok (none, none, none, none, none, none) ∧
    extractCandidateOdds soup = .ok [] ∧
    extractHouseOdds soup = .ok [] := by
  refine ⟨?_, ?_, ?_⟩
  · unfold extractPartyOdds
    rw [h]
    with_unfolding_all rfl
  · unfold extractCandidateOdds candidateCollect
    rw [h]
    with_unfolding_all rfl
  · unfold extractHouseOdds
    rw [h]
    with_unfolding_all rfl

/-- C4 counterexample: a document with zero tables and a document whose
matching candidate table has one unparsable row produce *equal* results
(`ok []`), so the two outcomes cannot be told apart from the returned
value. -/
theorem claim4_cex :
    findAllTag "table" c4docA = [] ∧
    (selectRows candHeading c4docB).length = 2 ∧
    extractCandidateOdds c4docA = .ok [] ∧
    extractCandidateOdds c4docB = .ok [] := by
  exact ⟨by with_unfolding_all rfl, by with_unfolding_all rfl,
    by with_unfolding_all rfl, by with_unfolding_all rfl⟩

/-- C4 witness. -/
theorem claim4_w :
    extractPartyOdds c4docA = .ok (none, none, none, none, none, none) ∧
    extractCandidateOdds c4docA = .ok [] ∧
    extractHouseOdds c4docA = .ok [] :=
  claim4 c4docA (by with_unfolding_all rfl)

/-- C5 (amended): a percentage is emitted only when the headline
paragraph's trimmed text, with percent signs stripped from *both* ends
(`strip('%')`), parses as a decimal float — there is no [0,100] range
restriction.  A row whose text fails the parse is dropped (candidate and
house) or leaves the state unchanged (party), never defaulted to zero and
never raised to the caller. -/
theorem claim5 :
    (∀ (row : Node) (r : CRow), candidateProcessRow row = .ok (some r) →
      ∃ p, rowOddsP row = some p ∧
        pyFloat (pyStripChar '%' (pyStrip (nodeText p))) = some r.odds) ∧
    (∀ row p : Node, rowOddsP row = some p →
      pyFloat (pyStripChar '%' (pyStrip (nodeText p))) = none →
      candidateProcessRow row = .ok none ∧ houseProcessRow row = .ok none) ∧
    (∀ (st : PState) (row p : Node), rowOddsP row = some p →
      pyFloat (pyStripChar '%' (pyStrip (nodeText p))) = none →
      partyStep st row = .ok st) := by
  refine ⟨fun row r h => ?_, fun row p hp hv => ?_, fun st row p hp hv => ?_⟩
  · obtain ⟨_, hnc⟩ := candidateProcessRow_some_anatomy row r h
    obtain ⟨img, src, p, himg, hs, hpp, hvv, hcp, hname⟩ :=
      candidateProcessRowNC_some_anatomy row r hnc
    exact ⟨p, hpp, hvv⟩
  · have hc := candidateProcessRow_of_oddsVal_none row p hp hv
    exact ⟨hc.1, houseProcessRow_of_NC_none row hc.2⟩
  · exact partyStep_oddsVal_none st row p hp hv

/-- C5 counterexample: the headline `150%` is emitted as the value 150,
outside [0,100]; and `%%51` (no *trailing* percent sign to strip, so the
claim's parse would fail) is emitted as 51 because `strip('%')` removes
percent signs from both ends. -/
theorem claim5_cex :
    extractPartyOdds c5doc = .ok (some 150, none, none, none, none, none) ∧
    ¬((150 : Rat) ≤ 100) ∧
    extractPartyOdds c5doc2 = .ok (some 51, none, none, none, none, none) := by
  refine ⟨by with_unfolding_all rfl, by norm_num, by with_unfolding_all rfl⟩

/-- C5 witness. -/
theorem claim5_w :
    candidateProcessRow c3naRow = .ok none ∧ houseProcessRow c3naRow = .ok none ∧
    partyStep ⟨[], [], []⟩ c3naRow = .ok ⟨[], [], []⟩ := by
  have h2 := claim5.2.1 c3naRow (mkP "N/A%") (by with_unfolding_all rfl)
    (by with_unfolding_all rfl)
  have h3 := claim5.2.2 ⟨[], [], []⟩ c3naRow (mkP "N/A%") (by with_unfolding_all rfl)
    (by with_unfolding_all rfl)
  exact ⟨h2.1, h2.2, h3⟩

/-- C6 (amended): for a row whose change span yields a parsed value, the
direction test is *substring containment*, not filename equality: in the
candidate and house extractors the direction is `down` exactly when the
span has a nested image whose `src` merely *contains* `"red"`, and `up` in
every other case including no image.  The party extractor tests containment
of `"red.png"` when an icon is present, but with *no* nested icon it sets
no direction and the debug f-string's `change_directions[party]` access
raises a `KeyError` when that party has no previously recorded
direction. -/
theorem claim6 :
    (∀ (row : Node) (cv : Rat) (dir : String), candChangePart row = .ok (some (cv, dir)) →
      ((dir = "down" ∨ dir = "up") ∧
        (dir = "down" ↔ ∃ span cimg csrc, rowChangeSpan row = some span ∧
          findAnyImg span = some cimg ∧ cimg.attr "src" = some csrc ∧
          strContains csrc "red" = true))) ∧
    (∀ (st : PState) (row img : Node) (src : String) (p : Node) (q : Rat) (span : Node)
        (cv : Rat),
      rowPartyImg row = some img → img.attr "src" = some src → rowOddsP row = some p →
      rowOddsVal p = some q → rowChangeSpan row = some span →
      spanChangeVal span = some cv → findAnyImg span = none →
      dictGet (partyKey src) st.dirs = none → partyStep st row = .error ()) ∧
    (∀ (st : PState) (row img : Node) (src : String) (p : Node) (q : Rat) (span : Node)
        (cv : Rat) (cimg : Node) (csrc : String),
      rowPartyImg row = some img → img.attr "src" = some src → rowOddsP row = some p →
      rowOddsVal p = some q → rowChangeSpan row = some span →
      spanChangeVal span = some cv → findAnyImg span = some cimg →
      cimg.attr "src" = some csrc →
      partyStep st row = .ok ⟨dictInsert (partyKey src) q st.odds,
        dictInsert (partyKey src) cv st.changes,
        dictInsert (partyKey src) (if strContains csrc "red.png" then "down" else "up")
          st.dirs⟩) := by
  refine ⟨fun row cv dir h => ?_, partyStep_noIcon_noDir, partyStep_icon⟩
  unfold candChangePart at h
  rcases hspan : rowChangeSpan row with _ | span
  · simp [hspan] at h
  · simp only [hspan] at h
    rcases hm : spanChangeVal span with _ | cv'
    · simp [hm] at h
    · simp only [hm] at h
      rcases hci : findAnyImg span with _ | cimg
      · simp only [hci, Except.ok.injEq, Option.some.injEq, Prod.mk.injEq] at h
        obtain ⟨-, hdir⟩ := h
        subst hdir
        refine ⟨Or.inr rfl, ?_, ?_⟩
        · intro hud
          exact absurd hud (by decide)
        · rintro ⟨span', cimg', csrc', hspan', hci', -, -⟩
          rw [Option.some.injEq] at hspan'
          subst hspan'
          rw [hci] at hci'
          exact absurd hci' (by simp)
      · simp only [hci, nodeItem] at h
        obtain ⟨s, hs⟩ : ∃ s, cimg.attr "src" = some s := by
          rcases hsx : cimg.attr "src" with _ | s
          · simp [hsx] at h
          · exact ⟨s, rfl⟩
        simp only [hs, Except.ok.injEq, Option.some.injEq, Prod.mk.injEq] at h
        obtain ⟨-, hdir⟩ := h
        subst hdir
        by_cases hred : strContains s "red" = true
        · rw [if_pos hred]
          refine ⟨Or.inl rfl, fun _ => ⟨span, cimg, s, rfl, hci, hs, hred⟩, fun _ => rfl⟩
        · rw [if_neg hred]
          refine ⟨Or.inr rfl, ?_, ?_⟩
          · intro hud
            exact absurd hud (by decide)
          · rintro ⟨span', cimg', csrc', hspan', hci', hcs', hred'⟩
            rw [Option.some.injEq] at hspan'
            subst hspan'
            rw [hci, Option.some.injEq] at hci'
            subst hci'
            rw [hs, Option.some.injEq] at hcs'
            subst hcs'
            exact absurd hred' hred

/-- C6 counterexample: a change icon named `colored.png` — whose filename
is not the decrease icon `red.png` — still yields direction `down` in the
candidate extractor, because `'red' in change_img['src']` is a substring
test. -/
theorem claim6_cex :
    extractCandidateOdds c6doc = .ok [⟨"smith", 42, 16 / 5, "down"⟩] ∧
    pySplitLastSlash "colored.png" = "colored.png" ∧
    ("colored.png" : String) ≠ "red.png" := by
  refine ⟨by with_unfolding_all rfl, by with_unfolding_all rfl, by decide⟩

/-- C6 witness. -/
theorem claim6_w :
    ((("up" : String) = "down" ∨ ("up" : String) = "up")) ∧
    partyStep ⟨[], [], []⟩ c6prow =
      .ok ⟨[("REP", 52)], [("REP", -(3 / 2))], [("REP", "down")]⟩ := by
  constructor
  · exact (claim6.1 c6wRow 1 "up" (by with_unfolding_all rfl)).1
  · have h := claim6.2.2 ⟨[], [], []⟩ c6prow (mkImg "REP.png") "REP.png" (mkP "52%") 52
      (mkSpan "-1.5%" [mkImg "red.png"]) (-(3 / 2)) (mkImg "red.png") "red.png"
      (by with_unfolding_all rfl) (by with_unfolding_all rfl) (by with_unfolding_all rfl)
      (by with_unfolding_all rfl) (by with_unfolding_all rfl) (by with_unfolding_all rfl)
      (by with_unfolding_all rfl) (by with_unfolding_all rfl)
    rw [h]
    with_unfolding_all rfl

/-- C7: the candidate result equals the collected (fully parsed) rows with
the sub-1% rows removed, stably sorted by odds descending, and truncated to
at most 4: the result is the 4-truncation of the stable descending sort of
the collected list; it has at most 4 entries, is sorted descending, keeps
only rows with odds ≥ 1; the sort is a permutation that preserves the
relative order of equal-odds rows; and the collected list is exactly the
`≥ 1` filter of the same loop run without the cutoff. -/
theorem claim7 (soup : Node) (l : List CRow) (h : extractCandidateOdds soup = .ok l) :
    ∃ c, candidateCollect soup = .ok c ∧
      l = (pySortDesc c).take 4 ∧
      l.length ≤ 4 ∧
      List.Sorted (fun a b : CRow => b.odds ≤ a.odds) l ∧
      (∀ r ∈ l, 1 ≤ r.odds) ∧
      (pySortDesc c).Perm c ∧
      (∀ q : Rat, (pySortDesc c).filter (fun r => r.odds == q) =
        c.filter (fun r => r.odds == q)) ∧
      (∀ c', candFoldNC (selectRows candHeading soup) = .ok c' →
        c = c'.filter (fun r => decide (1 ≤ r.odds))) := by
  unfold extractCandidateOdds at h
  rcases hc : candidateCollect soup with e | c
  · rw [hc] at h
    simp at h
  · rw [hc] at h
    simp only [Except.ok.injEq] at h
    have hflat : candFold (selectRows candHeading soup) = .ok c := by
      rw [show selectRows candHeading soup =
        rowsOf candHeading (findAllTag "table" soup) from rfl, ← candTables_flat]
      exact hc
    refine ⟨c, rfl, h.symm, ?_, ?_, ?_, pySortDesc_perm c, pySortDesc_filter_val c, ?_⟩
    · rw [← h]
      exact le_trans (List.length_take_le 4 _) (by norm_num)
    · rw [← h]
      exact (pySortDesc_sorted c).sublist (List.take_sublist 4 _)
    · intro r hr
      rw [← h] at hr
      have hr2 : r ∈ pySortDesc c := (List.take_sublist 4 _).mem hr
      have hr3 : r ∈ c := (pySortDesc_perm c).mem_iff.mp hr2
      exact candFold_odds_ge_one _ c hflat r hr3
    · intro c' hnc
      have := candFold_of_NC _ c' hnc
      rw [hflat] at this
      simp only [Except.ok.injEq] at this
      exact this

/-- C7 witness: the spec's own five-row example. -/
theorem claim7_w :
    extractCandidateOdds c7doc = .ok c7expected ∧
    (∃ c, candidateCollect c7doc = .ok c ∧
      c7expected = (pySortDesc c).take 4 ∧
      c7expected.length ≤ 4 ∧
      List.Sorted (fun a b : CRow => b.odds ≤ a.odds) c7expected ∧
      (∀ r ∈ c7expected, 1 ≤ r.odds) ∧
      (pySortDesc c).Perm c ∧
      (∀ q : Rat, (pySortDesc c).filter (fun r => r.odds == q) =
        c.filter (fun r => r.odds == q)) ∧
      (∀ c', candFoldNC (selectRows candHeading c7doc) = .ok c' →
        c = c'.filter (fun r => decide (1 ≤ r.odds)))) := by
  have h : extractCandidateOdds c7doc = .ok c7expected := by
    with_unfolding_all rfl
  exact ⟨h, claim7 c7doc c7expected h⟩

/-- C8: the house result is a mapping keyed by entity with last-write-wins
semantics: it equals the successfully parsed row sequence folded through
dict insertion, each key's value is the value of the *last* row in document
order bearing that key, and the keys of the output are duplicate-free. -/
theorem claim8 (soup : Node) (m : List (String × HVal))
    (h : extractHouseOdds soup = .ok m) :
    ∃ seq, houseFoldSeq (selectRows houseHeading soup) = .ok seq ∧
      m = seq.foldl (fun acc kv => dictInsert kv.1 kv.2 acc) [] ∧
      (∀ k, dictGet k m = ((seq.filter (fun p => p.1 == k)).getLast?).map Prod.snd) ∧
      (m.map Prod.fst).Nodup := by
  unfold extractHouseOdds at h
  rw [houseTables_flat, show rowsOf houseHeading (findAllTag "table" soup) =
    selectRows houseHeading soup from rfl, houseDictFold_eq_seq] at h
  rcases hseq : houseFoldSeq (selectRows houseHeading soup) with e | seq
  · rw [hseq] at h
    simp at h
  · rw [hseq] at h
    simp only [Except.ok.injEq] at h
    refine ⟨seq, rfl, h.symm, ?_, ?_⟩
    · intro k
      rw [← h, dictGet_foldl_ins]
      cases (seq.filter (fun p => p.1 == k)).getLast? with
      | none => rfl
      | some p => rfl
    · rw [← h]
      exact nodup_keys_foldl_ins seq [] (by simp)

/-- C8 witness: two rows keyed `dem`; the output holds exactly one `dem`
entry with the later row's values. -/
theorem claim8_w :
    extractHouseOdds c8doc = .ok [("dem", (55, 2, "up"))] ∧
    (∃ seq, houseFoldSeq (selectRows houseHeading c8doc) = .ok seq ∧
      [("dem", ((55 : Rat), (2 : Rat), "up"))] =
        seq.foldl (fun acc kv => dictInsert kv.1 kv.2 acc) [] ∧
      (∀ k, dictGet k [("dem", ((55 : Rat), (2 : Rat), "up"))] =
        ((seq.filter (fun p => p.1 == k)).getLast?).map Prod.snd) ∧
      ((([("dem", ((55 : Rat), (2 : Rat), "up"))]) :
          List (String × HVal)).map Prod.fst).Nodup) := by
  have h : extractHouseOdds c8doc = .ok [("dem", (55, 2, "up"))] := by
    with_unfolding_all rfl
  exact ⟨h, claim8 c8doc _ h⟩

/-- C9 (amended): the Candidate/ChamberControl key strips directory
components and the extension (`dir/name.png` yields `name`), but the Party
key only takes the text before the *first* dot and strips slashes from the
two ends — directory components are *kept* (`dir/name.png` yields
`dir/name`). -/
theorem claim9 (d n e : List Char) (hd : d ≠ []) (hn : n ≠ [])
    (hdDot : '.' ∉ d) (hdSl : '/' ∉ d) (hnDot : '.' ∉ n) (hnSl : '/' ∉ n)
    (heSl : '/' ∉ e) :
    candKey (String.mk (d ++ '/' :: n ++ '.' :: e)) = String.mk n ∧
    partyKey (String.mk (d ++ '/' :: n ++ '.' :: e)) = String.mk (d ++ '/' :: n) :=
  ⟨candKey_anatomy d n e hnDot hnSl heSl,
   partyKey_anatomy d n e hd hn hdDot hdSl hnDot hnSl⟩

/-- C9 counterexample: the party key of `images/REP.png` is `images/REP`,
not `REP` — so the REP row of `c9doc` is parsed under the wrong key and the
returned 6-tuple is all `None`. -/
theorem claim9_cex :
    partyKey "images/REP.png" = "images/REP" ∧
    ("images/REP" : String) ≠ "REP" ∧
    extractPartyOdds c9doc = .ok (none, none, none, none, none, none) := by
  refine ⟨by with_unfolding_all rfl, by decide, by with_unfolding_all rfl⟩

/-- C9 witness. -/
theorem claim9_w :
    candKey (String.mk (['d', 'i', 'r'] ++ '/' :: ['n', 'a', 'm', 'e'] ++ '.' ::
      ['p', 'n', 'g'])) = String.mk ['n', 'a', 'm', 'e'] ∧
    partyKey (String.mk (['d', 'i', 'r'] ++ '/' :: ['n', 'a', 'm', 'e'] ++ '.' ::
      ['p', 'n', 'g'])) = String.mk (['d', 'i', 'r'] ++ '/' :: ['n', 'a', 'm', 'e']) :=
  claim9 ['d', 'i', 'r'] ['n', 'a', 'm', 'e'] ['p', 'n', 'g'] (by decide) (by decide)
    (by decide) (by decide) (by decide) (by decide) (by decide)

/-- C10: in the `all` command, the party segment is rendered as
"Party odds unavailable" whenever the fetch result is `None` or any of the
six components of the party tuple is `None` or `0.0` — including a
successfully extracted result whose change magnitude is exactly zero or
whose direction is missing. -/
theorem claim10 (t : PartyRes)
    (h : t.1 = none ∨ t.1 = some 0 ∨ t.2.1 = none ∨ t.2.1 = some 0 ∨
      t.2.2.1 = none ∨ t.2.2.1 = some 0 ∨ t.2.2.2.1 = none ∨ t.2.2.2.1 = some 0 ∨
      t.2.2.2.2.1 = none ∨ t.2.2.2.2.2 = none) :
    partySegment (some t) = "Party odds unavailable" ∧
    partySegment none = "Party odds unavailable" := by
  refine ⟨?_, rfl⟩
  unfold partySegment
  dsimp only
  have hall : partyTupleAll t = false := by
    unfold partyTupleAll
    rcases h with h | h | h | h | h | h | h | h | h | h <;>
      simp [ratTruthy, strTruthy, h]
  rw [hall]
  simp

/-- C10 witness: a fully successful party tuple whose REP change is exactly
`0.0` is reported unavailable. -/
theorem claim10_w :
    partySegment (some (some 50, some 45, some 0, some (1 / 2), some "up", some "up")) =
      "Party odds unavailable" ∧
    partySegment none = "Party odds unavailable" :=
  claim10 (some 50, some 45, some 0, some (1 / 2), some "up", some "up")
    (Or.inr (Or.inr (Or.inr (Or.inr (Or.inr (Or.inl rfl))))))
